import Mathlib

/-!
Verification development for the camera-based semantic grid mapping node
(`semantic_grid_mapping.py`): an inverse-perspective-mapping (IPM) pipeline
that warps several camera images onto a shared ground-plane canvas and
composites them into one bird's-eye-view image.

The numerical core (matrix composition in `apply_ipm`, the compositing rule
in `compute_bev`) is embedded shallowly over `ℚ`: numpy float matrices become
rational matrices, `np.dot` becomes explicit fixed-dimension matrix products,
and `np.linalg.inv` becomes exact adjugate inversion that fails (as the numpy
call raises `LinAlgError`) exactly on a zero determinant.  External
collaborators (tf2 pose lookup, cv_bridge decoding, `cv2.warpPerspective`)
are modelled at the interface level described by the design document.
-/

/-- 3x3 rational matrix (row, column). -/
def Mat3 : Type := Fin 3 → Fin 3 → ℚ

/-- 3x4 rational matrix. -/
def Mat3x4 : Type := Fin 3 → Fin 4 → ℚ

/-- 4x3 rational matrix. -/
def Mat4x3 : Type := Fin 4 → Fin 3 → ℚ

/-- 4x4 rational matrix. -/
def Mat4 : Type := Fin 4 → Fin 4 → ℚ

/-- Product of two 3x3 matrices (`np.dot`). -/
def mul33 (A B : Mat3) : Mat3 := fun i j =>
  A i 0 * B 0 j + A i 1 * B 1 j + A i 2 * B 2 j

/-- Product of a 3x4 and a 4x3 matrix (`np.dot`). -/
def mul34x43 (A : Mat3x4) (B : Mat4x3) : Mat3 := fun i j =>
  A i 0 * B 0 j + A i 1 * B 1 j + A i 2 * B 2 j + A i 3 * B 3 j

/-- Product of a 3x3 and a 3x4 matrix (`np.dot`). -/
def mul33x34 (A : Mat3) (B : Mat3x4) : Mat3x4 := fun i j =>
  A i 0 * B 0 j + A i 1 * B 1 j + A i 2 * B 2 j

/-- Product of a 4x3 and a 3x3 matrix (`np.dot`). -/
def mul43x33 (A : Mat4x3) (B : Mat3) : Mat4x3 := fun i j =>
  A i 0 * B 0 j + A i 1 * B 1 j + A i 2 * B 2 j

/-- A 4x3 matrix applied to a 3-vector. -/
def mulVec43 (A : Mat4x3) (v : Fin 3 → ℚ) : Fin 4 → ℚ := fun i =>
  A i 0 * v 0 + A i 1 * v 1 + A i 2 * v 2

/-- 3x3 identity matrix. -/
def id3 : Mat3 := fun i j => if i = j then 1 else 0

/-- Transpose of a 3x3 matrix. -/
def transpose3 (A : Mat3) : Mat3 := fun i j => A j i

/-- Determinant of a 3x3 matrix, by cofactor expansion along the first row. -/
def det3 (A : Mat3) : ℚ :=
  A 0 0 * (A 1 1 * A 2 2 - A 1 2 * A 2 1)
  - A 0 1 * (A 1 0 * A 2 2 - A 1 2 * A 2 0)
  + A 0 2 * (A 1 0 * A 2 1 - A 1 1 * A 2 0)

/-- Signed cofactor of the 3x3 entry `(i, j)`, written with cyclic index
successors (for a 3x3 matrix this absorbs the checkerboard sign). -/
def cof3 (A : Mat3) (i j : Fin 3) : ℚ :=
  A (i + 1) (j + 1) * A (i + 2) (j + 2) - A (i + 1) (j + 2) * A (i + 2) (j + 1)

/-- Adjugate (transposed cofactor matrix) of a 3x3 matrix. -/
def adj3 (A : Mat3) : Mat3 := fun i j => cof3 A j i

/-- Exact inverse of a 3x3 matrix (`np.linalg.inv` on the mathematical level):
adjugate over determinant.  On a singular matrix (where the numpy call raises
`LinAlgError`) this returns the zero matrix, and the embedding of the caller
checks `det3 _ = 0` to model the raised exception. -/
def inv3 (A : Mat3) : Mat3 := fun i j => adj3 A i j / det3 A

/-- Canvas/pipeline configuration, the fields of `self.config` together with
the values read in `apply_ipm`. -/
structure Config where
  pxPerM : ℚ
  outputWidth : ℕ
  outputHeight : ℕ
  shiftX : ℚ
  shiftY : ℚ

/-- `load_parameters`: `px_per_m`, `output_width`, `output_height` are integer
ROS parameters; `shift_x`/`shift_y` are derived as `output_width / 2.0` and
`output_height / 2.0`. -/
def load_parameters (pxPerM outputWidth outputHeight : ℕ) : Config :=
  { pxPerM := pxPerM
    outputWidth := outputWidth
    outputHeight := outputHeight
    shiftX := (outputWidth : ℚ) / 2
    shiftY := (outputHeight : ℚ) / 2 }

/-- `M_2D_to_3D`: lifts homogeneous 2D ground coordinates `(x, y, w)` to
homogeneous 3D coordinates `(x, y, 0, w)` on the `z = 0` ground plane. -/
def M_2D_to_3D : Mat4x3 := fun i j =>
  match i.val, j.val with
  | 0, 0 => 1
  | 1, 1 => 1
  | 3, 2 => 1
  | _, _ => 0

/-- `M_direction`: y-axis inversion (image rows grow downward, ground y grows
forward). -/
def M_direction : Mat3 := fun i j =>
  match i.val, j.val with
  | 0, 0 => 1
  | 1, 1 => -1
  | 2, 2 => 1
  | _, _ => 0

/-- `M_shift`: translation of the canvas origin by `(-shift_x, -shift_y)`. -/
def M_shift (shiftX shiftY : ℚ) : Mat3 := fun i j =>
  match i.val, j.val with
  | 0, 0 => 1
  | 0, 2 => -shiftX
  | 1, 1 => 1
  | 1, 2 => -shiftY
  | 2, 2 => 1
  | _, _ => 0

/-- `M_scale`: conversion of canvas pixel units to metric units,
`1 / px_per_m` on both axes. -/
def M_scale (pxPerM : ℚ) : Mat3 := fun i j =>
  match i.val, j.val with
  | 0, 0 => 1 / pxPerM
  | 1, 1 => 1 / pxPerM
  | 2, 2 => 1
  | _, _ => 0

/-- The ground-plane matrix `M` of `apply_ipm`, with the source's grouping:
`M = (M_2D_to_3D).dot(M_scale).dot(M_direction.dot(M_shift))`. -/
def M_ground (cfg : Config) : Mat4x3 :=
  mul43x33 (mul43x33 M_2D_to_3D (M_scale cfg.pxPerM))
    (mul33 M_direction (M_shift cfg.shiftX cfg.shiftY))

/-- `E[:-1,:]`: the top three rows of a 4x4 extrinsic matrix. -/
def top3 (E : Mat4) : Mat3x4 := fun i j => E ⟨i.val, by omega⟩ j

/-- The composed matrix inverted by `apply_ipm`:
`P.dot(M)` with `P = K.dot(E[:-1,:])`. -/
def buildM (cfg : Config) (K : Mat3) (E : Mat4) : Mat3 :=
  mul34x43 (mul33x34 K (top3 E)) (M_ground cfg)

/-- The composition exactly as the design document words it:
`ground_to_camera_pixel = K · E_top3rows · (embed · scale · flip · shift)`,
associated from the left. -/
def groundToCameraPixel (cfg : Config) (K : Mat3) (E : Mat4) : Mat3 :=
  mul34x43 (mul33x34 K (top3 E))
    (mul43x33 (mul43x33 (mul43x33 M_2D_to_3D (M_scale cfg.pxPerM)) M_direction)
      (M_shift cfg.shiftX cfg.shiftY))

/-- A decoded image: a `height × width × 3` pixel buffer.  Channel values are
8-bit in the source; the embedding uses `ℕ` (the compositing rule only tests
against 0 and copies values, so the numeric range is irrelevant). -/
structure Image where
  width : ℕ
  height : ℕ
  px : ℕ → ℕ → Fin 3 → ℕ

/-- The masking step of `apply_ipm`: `cv2.rectangle` fills the mask with 255
on rows `input_img_height // 2 .. input_img_height` and `cv2.bitwise_and`
keeps exactly the pixels with a nonzero mask, so rows strictly above the
midline (row `< height / 2`, integer division) become 0. -/
def maskUpperHalf (img : Image) : Image :=
  { img with px := fun r c ch => if r < img.height / 2 then 0 else img.px r c ch }

/-- Floor of a rational number, as the integer part used when a warp samples
the source at a sub-pixel coordinate. -/
def qfloor (q : ℚ) : ℤ := Int.fdiv q.num q.den

/-- The homogeneous source coordinate a homography assigns to the destination
pixel `(x, y)`: the matrix applied to `(x, y, 1)`. -/
def srcCoord (M : Mat3) (x y : ℚ) : Fin 3 → ℚ := fun i =>
  M i 0 * x + M i 1 * y + M i 2

/-- Modelled from the spec: the sampling step of `cv2.warpPerspective` (the
OpenCV call is not part of this repository).  For a destination pixel the
homography gives a homogeneous source coordinate; after perspective division
the source is sampled if the coordinate lies inside the source bounds, and
the destination pixel is the background value 0 otherwise (including a zero
homogeneous divisor).  Sub-pixel interpolation is simplified to
nearest-lower-integer sampling. -/
def samplePoint (img : Image) (M : Mat3) (x y : ℚ) (ch : Fin 3) : ℕ :=
  if srcCoord M x y 2 = 0 then 0
  else if 0 ≤ qfloor (srcCoord M x y 0 / srcCoord M x y 2) ∧
      qfloor (srcCoord M x y 0 / srcCoord M x y 2) < (img.width : ℤ) ∧
      0 ≤ qfloor (srcCoord M x y 1 / srcCoord M x y 2) ∧
      qfloor (srcCoord M x y 1 / srcCoord M x y 2) < (img.height : ℤ) then
    img.px (qfloor (srcCoord M x y 1 / srcCoord M x y 2)).toNat
      (qfloor (srcCoord M x y 0 / srcCoord M x y 2)).toNat ch
  else 0

/-- Whether the source coordinate mapped from destination pixel `(x, y)`
falls inside the source image bounds (with a nonzero homogeneous divisor). -/
def srcInBounds (img : Image) (M : Mat3) (x y : ℚ) : Prop :=
  srcCoord M x y 2 ≠ 0 ∧
  0 ≤ qfloor (srcCoord M x y 0 / srcCoord M x y 2) ∧
  qfloor (srcCoord M x y 0 / srcCoord M x y 2) < (img.width : ℤ) ∧
  0 ≤ qfloor (srcCoord M x y 1 / srcCoord M x y 2) ∧
  qfloor (srcCoord M x y 1 / srcCoord M x y 2) < (img.height : ℤ)

instance (img : Image) (M : Mat3) (x y : ℚ) : Decidable (srcInBounds img M x y) := by
  unfold srcInBounds; infer_instance

/-- Modelled from the spec: `cv2.warpPerspective img M (width, height)` —
an output canvas of the requested size whose pixel at row `r`, column `c` is
the source sample at the coordinate the homography assigns to destination
pixel `(x, y) = (c, r)`. -/
def warpPerspective (img : Image) (M : Mat3) (width height : ℕ) : Image :=
  { width := width
    height := height
    px := fun r c ch => samplePoint img M (c : ℚ) (r : ℚ) ch }

/-- Per-view failures of `compute_bev`, named after the exception the Python
code lets escape: `poseLookup` for a tf2 lookup exception raised by
`lookup_transform`, `singularTransform` for the `numpy.linalg.LinAlgError`
raised by `np.linalg.inv` on a singular matrix. -/
inductive BevError where
  | poseLookup : BevError
  | singularTransform : BevError
deriving DecidableEq

/-- `apply_ipm`: mask the upper half of the image, compose the ground-plane
matrix with the projection `P = K.dot(E[:-1,:])`, invert the composition and
warp.  The inversion raises (`.error .singularTransform`) exactly when the
composed matrix is singular. -/
def apply_ipm (cfg : Config) (image : Image) (K : Mat3) (E : Mat4) :
    Except BevError Image :=
  let masked := maskUpperHalf image
  let A := buildM cfg K E
  if det3 A = 0 then .error .singularTransform
  else .ok (warpPerspective masked (inv3 A) cfg.outputWidth cfg.outputHeight)

/-- Assembly of the 4x4 extrinsic matrix in `compute_bev`:
`np.column_stack([R, t])` followed by `np.row_stack([·, [0,0,0,1]])`. -/
def mkE (R : Mat3) (t : Fin 3 → ℚ) : Mat4 := fun i j =>
  if hi : i.val < 3 then
    if hj : j.val < 3 then R ⟨i.val, hi⟩ ⟨j.val, hj⟩ else t ⟨i.val, hi⟩
  else
    if j.val = 3 then 1 else 0

/-- `np.reshape(cam_info_msg.k, (3,3))`: the flattened row-major 9-element
intrinsic vector as a 3x3 matrix. -/
def reshape33 (k : Fin 9 → ℚ) : Mat3 := fun i j =>
  k ⟨3 * i.val + j.val, by have := i.isLt; have := j.isLt; omega⟩

/-- One synchronized (image, camera-info) pair of `compute_bev`, together
with the outcome of the external collaborators consulted for it: the decoded
pixel buffer (cv_bridge), the flattened intrinsic matrix from the CameraInfo
message, and the result of the tf2 `lookup_transform` call.  `pose = none`
models a raised lookup exception; a successful lookup is abstracted to the
rotation matrix and translation the quaternion conversion produces (the
trigonometric quaternion-to-Euler-to-matrix steps are deterministic scalar
math on the looked-up values). -/
structure ViewInput where
  pose : Option (Mat3 × (Fin 3 → ℚ))
  kFlat : Fin 9 → ℚ
  image : Image

/-- The per-view body of the `compute_bev` loop: resolve the pose (raising
aborts the view), assemble `E`, reshape `K`, and run `apply_ipm`. -/
def processView (cfg : Config) (v : ViewInput) : Except BevError Image :=
  match v.pose with
  | none => .error .poseLookup
  | some (R, t) => apply_ipm cfg v.image (reshape33 v.kFlat) (mkE R t)

/-- The compositing assignment of `compute_bev`:
`bev_total_img[bev_total_img==(0,0,0)] = output_image[bev_total_img==(0,0,0)]`.
The comparison `bev_total_img == (0,0,0)` broadcasts over the last axis, so
the boolean mask is per **channel**: a canvas channel still 0 takes the
view's channel value, a nonzero canvas channel is kept. -/
def compositePx (canvas view : ℕ → ℕ → Fin 3 → ℕ) : ℕ → ℕ → Fin 3 → ℕ :=
  fun r c ch => if canvas r c ch = 0 then view r c ch else canvas r c ch

/-- Left fold of the compositing assignment over a list of warped views,
starting from the all-background canvas (`np.zeros`). -/
def compositeList (views : List (ℕ → ℕ → Fin 3 → ℕ)) : ℕ → ℕ → Fin 3 → ℕ :=
  views.foldl compositePx (fun _ _ _ => 0)

/-- The loop of `compute_bev` over the synchronized views, threading the
canvas.  Any exception escapes immediately (there is no try/except in the
source), so the first failing view aborts the whole frame. -/
def computeBevGo (cfg : Config) :
    List ViewInput → (ℕ → ℕ → Fin 3 → ℕ) → Except BevError (ℕ → ℕ → Fin 3 → ℕ)
  | [], acc => .ok acc
  | v :: rest, acc =>
    match processView cfg v with
    | .error e => .error e
    | .ok out => computeBevGo cfg rest (compositePx acc out.px)

/-- `compute_bev`: initialize the canvas to zeros, process every view in
input order, and (on normal termination) publish the composited canvas.
`.ok` is the published image, `.error` is an uncaught exception escaping the
callback — no image is published for the frame. -/
def compute_bev (cfg : Config) (views : List ViewInput) :
    Except BevError (ℕ → ℕ → Fin 3 → ℕ) :=
  computeBevGo cfg views (fun _ _ _ => 0)

/-- The value the compositing fold leaves in one canvas cell: the first
nonzero value in the per-view sequence for that cell, or 0. -/
def firstNonzero : List ℕ → ℕ
  | [] => 0
  | x :: xs => if x = 0 then firstNonzero xs else x

/-- Normalisation of `Fin 3` anonymous-constructor index 2 to its numeral. -/
lemma fin3_mk_two (h : 2 < 3) : (⟨2, h⟩ : Fin 3) = 2 := rfl

/-- Normalisation of `Fin 4` anonymous-constructor index 2 to its numeral. -/
lemma fin4_mk_two (h : 2 < 4) : (⟨2, h⟩ : Fin 4) = 2 := rfl

/-- Normalisation of `Fin 4` anonymous-constructor index 3 to its numeral. -/
lemma fin4_mk_three (h : 3 < 4) : (⟨3, h⟩ : Fin 4) = 3 := rfl

/-- Laplace expansion: a 3x3 matrix times its adjugate is the determinant
times the identity, entrywise. -/
lemma mul33_adj3 (A : Mat3) (i j : Fin 3) :
    mul33 A (adj3 A) i j = det3 A * id3 i j := by
  fin_cases i <;> fin_cases j <;>
    (simp [mul33, adj3, cof3, det3, id3, fin3_mk_two]; try ring)

/-- Laplace expansion on the other side. -/
lemma adj3_mul33 (A : Mat3) (i j : Fin 3) :
    mul33 (adj3 A) A i j = det3 A * id3 i j := by
  fin_cases i <;> fin_cases j <;>
    (simp [mul33, adj3, cof3, det3, id3, fin3_mk_two]; try ring)

/-- A 3x3 matrix with nonzero determinant times its `inv3` is the identity. -/
lemma mul33_inv3 (A : Mat3) (h : det3 A ≠ 0) (i j : Fin 3) :
    mul33 A (inv3 A) i j = id3 i j := by
  have hd : mul33 A (inv3 A) i j = mul33 A (adj3 A) i j / det3 A := by
    simp only [mul33, inv3]; ring
  rw [hd, mul33_adj3, mul_comm, mul_div_assoc, div_self h, mul_one]

/-- `inv3` is also a left inverse when the determinant is nonzero. -/
lemma inv3_mul33 (A : Mat3) (h : det3 A ≠ 0) (i j : Fin 3) :
    mul33 (inv3 A) A i j = id3 i j := by
  have hd : mul33 (inv3 A) A i j = mul33 (adj3 A) A i j / det3 A := by
    simp only [mul33, inv3]; ring
  rw [hd, adj3_mul33, mul_comm, mul_div_assoc, div_self h, mul_one]

/-- The determinant is multiplicative on 3x3 matrices. -/
lemma det3_mul33 (A B : Mat3) : det3 (mul33 A B) = det3 A * det3 B := by
  simp only [det3, mul33]; ring

/-- Mixed-dimension associativity used to factor the intrinsic matrix out of
the composed homography: `(K · T) · M = K · (T · M)`. -/
lemma mul34x43_assoc (K : Mat3) (T : Mat3x4) (M : Mat4x3) :
    mul34x43 (mul33x34 K T) M = mul33 K (mul34x43 T M) := by
  funext i j
  simp only [mul34x43, mul33x34, mul33]
  ring

/-- What the compositing fold leaves in one cell: starting from any canvas,
a cell that is still background takes the first nonzero per-view value, a
nonzero cell is never overwritten. -/
lemma foldl_compositePx (views : List (ℕ → ℕ → Fin 3 → ℕ))
    (acc : ℕ → ℕ → Fin 3 → ℕ) (r c : ℕ) (ch : Fin 3) :
    views.foldl compositePx acc r c ch =
      if acc r c ch = 0 then firstNonzero (views.map fun v => v r c ch)
      else acc r c ch := by
  induction views generalizing acc with
  | nil =>
    simp only [List.foldl_nil, List.map_nil, firstNonzero]
    by_cases h : acc r c ch = 0 <;> simp [h]
  | cons v vs ih =>
    simp only [List.foldl_cons, List.map_cons, firstNonzero, ih, compositePx]
    by_cases h : acc r c ch = 0 <;> simp [h]

/-- In `compute_bev`, an uncaught per-view exception after any number of
successful views aborts the whole frame with that exception. -/
lemma computeBevGo_error (cfg : Config) (pre : List ViewInput) (bad : ViewInput)
    (post : List ViewInput) (acc : ℕ → ℕ → Fin 3 → ℕ) (e : BevError)
    (hpre : ∀ v ∈ pre, (processView cfg v).isOk = true)
    (hbad : processView cfg bad = .error e) :
    computeBevGo cfg (pre ++ bad :: post) acc = .error e := by
  induction pre generalizing acc with
  | nil => simp [computeBevGo, hbad]
  | cons v vs ih =>
    have hv : (processView cfg v).isOk = true := hpre v (by simp)
    obtain ⟨out, hout⟩ : ∃ out, processView cfg v = .ok out := by
      cases h : processView cfg v with
      | ok o => exact ⟨o, rfl⟩
      | error e' => rw [h] at hv; simp [Except.isOk, Except.toBool] at hv
    simp only [List.cons_append, computeBevGo, hout]
    exact ih _ (fun w hw => hpre w (by simp [hw]))

/-- Rotation part of a 4x4 extrinsic matrix (its upper-left 3x3 block). -/
def rpart (E : Mat4) : Mat3 := fun i j => E ⟨i.val, by omega⟩ ⟨j.val, by omega⟩

/-- Translation by one unit along z, as produced by a pose lookup. -/
def tZ1 : Fin 3 → ℚ := fun i => if i.val = 2 then 1 else 0

/-- A small concrete configuration: `px_per_m = 1`, 2x2 output canvas. -/
def cfgEx : Config := load_parameters 1 2 2

/-- A concrete 2x2 source image with every channel value 7. -/
def imgEx : Image := ⟨2, 2, fun _ _ _ => 7⟩

/-- Flattened 3x3 identity intrinsic matrix. -/
def kIdFlat : Fin 9 → ℚ := fun i => if i.val = 0 ∨ i.val = 4 ∨ i.val = 8 then 1 else 0

/-- Flattened upper-triangular intrinsic matrix `diag(0, 1, 1)`: a zero focal
length on the diagonal. -/
def kBadFlat : Fin 9 → ℚ := fun i => if i.val = 4 ∨ i.val = 8 then 1 else 0

/-- Extrinsic pose with identity rotation and unit-z translation (a camera
one meter above the ground plane). -/
def eGood : Mat4 := mkE id3 tZ1

/-- Extrinsic pose with identity rotation and zero translation (a camera
centered on the ground plane). -/
def eFlat : Mat4 := mkE id3 (fun _ => 0)

/-- A view whose collaborators all succeed: identity intrinsics, pose
`eGood`, source image `imgEx`. -/
def vGood : ViewInput := ⟨some (id3, tZ1), kIdFlat, imgEx⟩

/-- A view whose tf2 pose lookup raises. -/
def vBadPose : ViewInput := ⟨none, kIdFlat, imgEx⟩

/-- A view whose intrinsic matrix has a zero diagonal entry (and is
singular). -/
def vBadK : ViewInput := ⟨some (id3, tZ1), kBadFlat, imgEx⟩

/-- An everywhere-blue view (BGR pixel `(255, 0, 0)` stored channelwise as
channel 0 = 255). -/
def viewBlueC : ℕ → ℕ → Fin 3 → ℕ := fun _ _ ch => if ch = 0 then 255 else 0

/-- An everywhere-green view (BGR pixel `(0, 255, 0)`). -/
def viewGreenC : ℕ → ℕ → Fin 3 → ℕ := fun _ _ ch => if ch = 1 then 255 else 0

/-- Claim C1, counterexample: the compositing rule of `compute_bev` is not
first-writer-wins at pixel granularity.  Two fully-overlapping views with
different non-background colors (blue, then green) produce at the overlapped
pixel `(0,0)` a per-channel mixture `(255, 255, 0)`: channel 1 comes from the
second view, not from the first view's color. -/
theorem c1_counterexample :
    viewBlueC 0 0 0 = 255 ∧ viewGreenC 0 0 1 = 255 ∧
    compositeList [viewBlueC, viewGreenC] 0 0 0 = 255 ∧
    compositeList [viewBlueC, viewGreenC] 0 0 1 = 255 ∧
    compositeList [viewBlueC, viewGreenC] 0 0 1 ≠ viewBlueC 0 0 1 := by
  refine ⟨rfl, rfl, rfl, rfl, ?_⟩
  intro h
  simp [compositeList, compositePx, List.foldl, viewBlueC, viewGreenC] at h

/-- Claim C1 (amended): compositing is first-writer-wins at **channel**
granularity.  The canvas starts background-valued (zero), views are processed
in input order, and each canvas cell (pixel, channel) that is still zero is
overwritten with the view's value at that cell; a cell covered by several
views keeps the value of the earliest view whose value there is nonzero. -/
theorem c1_channel_first_writer_wins (views : List (ℕ → ℕ → Fin 3 → ℕ))
    (r c : ℕ) (ch : Fin 3) :
    compositeList views r c ch = firstNonzero (views.map fun v => v r c ch) := by
  simp [compositeList, foldl_compositePx]

/-- Claim C2, counterexample: a per-view failure is not recovered locally.
The view `vGood` warps and composites fine on its own, but a frame in which
the pose lookup of the other view raises aborts with the uncaught exception:
no composite is produced at all, instead of a composite that merely omits the
failing view. -/
theorem c2_counterexample :
    (compute_bev cfgEx [vGood]).isOk = true ∧
    compute_bev cfgEx [vBadPose, vGood] = .error .poseLookup := by
  constructor
  · with_unfolding_all decide
  · with_unfolding_all rfl

/-- Claim C2 (amended): `compute_bev` has no per-view error handling.  When
every view before view i succeeds and view i fails (pose lookup raises, or
the composed matrix is singular so the inversion raises), the exception
escapes the callback: the whole frame aborts with that error and no canvas is
produced, instead of the view being dropped and the others composited. -/
theorem c2_per_view_failure_aborts_frame (cfg : Config) (pre : List ViewInput)
    (bad : ViewInput) (post : List ViewInput) (e : BevError)
    (hpre : ∀ v ∈ pre, (processView cfg v).isOk = true)
    (hbad : processView cfg bad = .error e) :
    compute_bev cfg (pre ++ bad :: post) = .error e :=
  computeBevGo_error cfg pre bad post _ e hpre hbad

/-- Claim C2, witness: concrete instance of the amended theorem — one
successful view followed by a view with a failing pose lookup aborts the
frame with the lookup error. -/
theorem c2_witness : compute_bev cfgEx [vGood, vBadPose] = .error .poseLookup :=
  c2_per_view_failure_aborts_frame cfgEx [vGood] vBadPose [] .poseLookup
    (by
      intro v hv
      rw [List.mem_singleton] at hv
      subst hv
      with_unfolding_all decide)
    rfl

/-- Claim C9: the pipeline is deterministic — `compute_bev` is a pure
function of the frozen per-frame inputs (intrinsics, resolved poses, images,
configuration), so two runs on identical inputs produce identical output
canvases. -/
theorem c9_deterministic (cfg : Config) (views : List ViewInput) :
    compute_bev cfg views = compute_bev cfg views := rfl

/-- The source's grouping of the matrix products equals the specification's
left-associated composition (matrix-product associativity). -/
lemma buildM_eq_groundToCameraPixel (cfg : Config) (K : Mat3) (E : Mat4) :
    buildM cfg K E = groundToCameraPixel cfg K E := by
  funext i j
  simp only [buildM, groundToCameraPixel, M_ground, mul34x43, mul33x34, mul43x33, mul33]
  ring

/-- Claim C3: the matrix inverted by `apply_ipm` is exactly the composition
`K · E_top3rows · (embed · scale · flip · shift)` of the design document, and
whenever that composition is nonsingular the warp is invoked with its
inverse (the map applied to output canvas pixels to locate source pixels) on
the masked source image. -/
theorem c3_homography_composition (cfg : Config) (img : Image) (K : Mat3)
    (E : Mat4) (hdet : det3 (buildM cfg K E) ≠ 0) :
    buildM cfg K E = groundToCameraPixel cfg K E ∧
    apply_ipm cfg img K E =
      .ok (warpPerspective (maskUpperHalf img)
        (inv3 (groundToCameraPixel cfg K E)) cfg.outputWidth cfg.outputHeight) := by
  refine ⟨buildM_eq_groundToCameraPixel cfg K E, ?_⟩
  rw [apply_ipm, if_neg hdet, buildM_eq_groundToCameraPixel]

/-- Claim C3, witness: the composition identity and the warp call at a
concrete configuration, intrinsics and pose. -/
theorem c3_witness :
    buildM cfgEx id3 eGood = groundToCameraPixel cfgEx id3 eGood ∧
    apply_ipm cfgEx imgEx id3 eGood =
      .ok (warpPerspective (maskUpperHalf imgEx)
        (inv3 (groundToCameraPixel cfgEx id3 eGood)) cfgEx.outputWidth
        cfgEx.outputHeight) :=
  c3_homography_composition cfgEx imgEx id3 eGood (by with_unfolding_all decide)

/-- Claim C4, counterexample: a non-degenerate intrinsic matrix (identity,
focal lengths 1 > 0) and a valid extrinsic pose (identity rotation —
orthonormal with determinant 1 — and zero translation) give a **singular**
composed matrix: a camera centered on the ground plane has no invertible
ground homography, so `HomographyBuilder.build` does not return an
invertible M for every valid K and E, and M · M⁻¹ is not the identity
there. -/
theorem c4_counterexample :
    (0 : ℚ) < id3 0 0 ∧ (0 : ℚ) < id3 1 1 ∧
    mul33 (rpart eFlat) (transpose3 (rpart eFlat)) = id3 ∧
    det3 (rpart eFlat) = 1 ∧
    det3 (buildM cfgEx id3 eFlat) = 0 ∧
    mul33 (buildM cfgEx id3 eFlat) (inv3 (buildM cfgEx id3 eFlat)) 0 0 = 0 := by
  refine ⟨by norm_num [id3], by norm_num [id3], ?_, ?_, ?_, ?_⟩
  · funext i j
    fin_cases i <;> fin_cases j <;> with_unfolding_all decide
  · with_unfolding_all decide
  · with_unfolding_all decide
  · with_unfolding_all decide

/-- Claim C4 (amended): for a non-degenerate K (positive focal lengths) and
a valid orthonormal E, **and additionally a nonsingular composed matrix**
(nonzero determinant — valid K and E alone do not guarantee this, see the
counterexample), the matrix M built by `apply_ipm` is invertible and
M · M⁻¹ = M⁻¹ · M = identity, entrywise. -/
theorem c4_inverse_identity (cfg : Config) (K : Mat3) (E : Mat4)
    (hK0 : (0 : ℚ) < K 0 0) (hK1 : (0 : ℚ) < K 1 1)
    (hR : mul33 (rpart E) (transpose3 (rpart E)) = id3)
    (hRdet : det3 (rpart E) = 1)
    (hdet : det3 (buildM cfg K E) ≠ 0) (i j : Fin 3) :
    mul33 (buildM cfg K E) (inv3 (buildM cfg K E)) i j = id3 i j ∧
    mul33 (inv3 (buildM cfg K E)) (buildM cfg K E) i j = id3 i j :=
  ⟨mul33_inv3 _ hdet i j, inv3_mul33 _ hdet i j⟩

/-- Claim C4, witness: the two-sided inverse identity at a concrete
non-degenerate K, valid E and nonsingular composition, evaluated at entries
(0,0) and (1,2). -/
theorem c4_witness :
    (mul33 (buildM cfgEx id3 eGood) (inv3 (buildM cfgEx id3 eGood)) 0 0 = id3 0 0 ∧
      mul33 (inv3 (buildM cfgEx id3 eGood)) (buildM cfgEx id3 eGood) 0 0 = id3 0 0) ∧
    (mul33 (buildM cfgEx id3 eGood) (inv3 (buildM cfgEx id3 eGood)) 1 2 = id3 1 2 ∧
      mul33 (inv3 (buildM cfgEx id3 eGood)) (buildM cfgEx id3 eGood) 1 2 = id3 1 2) :=
  ⟨c4_inverse_identity cfgEx id3 eGood (by norm_num [id3]) (by norm_num [id3])
      (by funext i j; fin_cases i <;> fin_cases j <;> with_unfolding_all decide)
      (by with_unfolding_all decide) (by with_unfolding_all decide) 0 0,
    c4_inverse_identity cfgEx id3 eGood (by norm_num [id3]) (by norm_num [id3])
      (by funext i j; fin_cases i <;> fin_cases j <;> with_unfolding_all decide)
      (by with_unfolding_all decide) (by with_unfolding_all decide) 1 2⟩

/-- Claim C5, counterexample: an intrinsic matrix with a zero diagonal entry
(zero focal length, `diag(0,1,1)`) does not raise any calibration error and
is not merely excluded: the composed matrix becomes singular, the inversion
raises, and the **whole frame aborts** — the frame does not complete, and
the healthy view `vGood` in the same frame is not composited either. -/
theorem c5_counterexample :
    reshape33 kBadFlat 0 0 = 0 ∧
    compute_bev cfgEx [vBadK, vGood] = .error .singularTransform := by
  constructor
  · with_unfolding_all decide
  · with_unfolding_all rfl

/-- Claim C5 (amended): there is no `MalformedCalibrationError` check in the
code.  A camera whose 3x3 intrinsic matrix is singular (as an upper-
triangular matrix with a zero diagonal focal length is) makes the composed
matrix singular for every pose, `np.linalg.inv` raises `LinAlgError`, and
the uncaught exception aborts the whole frame after any number of successful
views: no composite is published, rather than the camera being excluded and
the frame completing. -/
theorem c5_singular_intrinsic_aborts_frame (cfg : Config)
    (pre : List ViewInput) (v : ViewInput) (post : List ViewInput)
    (R : Mat3) (t : Fin 3 → ℚ)
    (hpre : ∀ w ∈ pre, (processView cfg w).isOk = true)
    (hpose : v.pose = some (R, t))
    (hK : det3 (reshape33 v.kFlat) = 0) :
    compute_bev cfg (pre ++ v :: post) = .error .singularTransform := by
  apply computeBevGo_error cfg pre v post _ _ hpre
  have hsing : det3 (buildM cfg (reshape33 v.kFlat) (mkE R t)) = 0 := by
    rw [buildM, mul34x43_assoc, det3_mul33, hK, zero_mul]
  simp only [processView, hpose]
  rw [apply_ipm, if_pos hsing]

/-- Claim C5, witness: concrete instance of the amended theorem — the frame
containing only the zero-focal-length camera aborts with the singular-matrix
error. -/
theorem c5_witness : compute_bev cfgEx [vBadK] = .error .singularTransform :=
  c5_singular_intrinsic_aborts_frame cfgEx [] vBadK [] id3 tZ1
    (by intro w hw; simp at hw) rfl (by with_unfolding_all decide)

/-- Case analysis on one warped destination pixel: a destination pixel whose
source coordinate is out of bounds is background, and every destination
pixel is either background or an in-bounds source pixel (the model indexes
the buffer only after the bounds test, so no access is out of range). -/
lemma warp_px_cases (img : Image) (M : Mat3) (w h r c : ℕ) (ch : Fin 3) :
    (¬ srcInBounds img M (c : ℚ) (r : ℚ) → (warpPerspective img M w h).px r c ch = 0) ∧
    ((warpPerspective img M w h).px r c ch = 0 ∨
      ∃ sr sc : ℕ, sr < img.height ∧ sc < img.width ∧
        (warpPerspective img M w h).px r c ch = img.px sr sc ch) := by
  constructor
  · intro hnb
    simp only [warpPerspective, samplePoint]
    by_cases h2 : srcCoord M (c : ℚ) (r : ℚ) 2 = 0
    · rw [if_pos h2]
    · rw [if_neg h2, if_neg]
      intro hb
      exact hnb ⟨h2, hb⟩
  · simp only [warpPerspective, samplePoint]
    by_cases h2 : srcCoord M (c : ℚ) (r : ℚ) 2 = 0
    · rw [if_pos h2]; left; rfl
    · rw [if_neg h2]
      by_cases hb : 0 ≤ qfloor (srcCoord M (c : ℚ) (r : ℚ) 0 / srcCoord M (c : ℚ) (r : ℚ) 2) ∧
          qfloor (srcCoord M (c : ℚ) (r : ℚ) 0 / srcCoord M (c : ℚ) (r : ℚ) 2) < (img.width : ℤ) ∧
          0 ≤ qfloor (srcCoord M (c : ℚ) (r : ℚ) 1 / srcCoord M (c : ℚ) (r : ℚ) 2) ∧
          qfloor (srcCoord M (c : ℚ) (r : ℚ) 1 / srcCoord M (c : ℚ) (r : ℚ) 2) < (img.height : ℤ)
      · rw [if_pos hb]
        right
        refine ⟨_, _, ?_, ?_, rfl⟩
        · omega
        · omega
      · rw [if_neg hb]; left; rfl

/-- Claim C7: during warping, every destination pixel whose inverse-mapped
source coordinate falls outside the source image bounds is set to the
background value 0, and every destination pixel is either background or read
from an in-bounds source location — sampling is total, with no out-of-range
buffer access, for every image, homography and output size. -/
theorem c7_out_of_bounds_background (img : Image) (M : Mat3) (w h r c : ℕ)
    (ch : Fin 3) :
    (¬ srcInBounds img M (c : ℚ) (r : ℚ) → (warpPerspective img M w h).px r c ch = 0) ∧
    ((warpPerspective img M w h).px r c ch = 0 ∨
      ∃ sr sc : ℕ, sr < img.height ∧ sc < img.width ∧
        (warpPerspective img M w h).px r c ch = img.px sr sc ch) :=
  warp_px_cases img M w h r c ch

/-- Claim C7, witness: the destination pixel (8,8) of a warp of the 2x2
image by the identity homography maps outside the source bounds and is
background. -/
theorem c7_witness : (warpPerspective imgEx id3 9 9).px 8 8 0 = 0 :=
  (c7_out_of_bounds_background imgEx id3 9 9 8 8 0).1 (by with_unfolding_all decide)

/-- Claim C6: before warping, the upper half of the source image is masked
to the background value — every pixel in a row strictly above the vertical
midline (row `< height / 2`) is zeroed, rows at or below it are unchanged —
and consequently every pixel of the warped view `apply_ipm` builds is either
background or comes from a source row in the lower half. -/
theorem c6_upper_half_masked (cfg : Config) (img : Image) (K : Mat3) (E : Mat4)
    (r c : ℕ) (ch : Fin 3) :
    (r < img.height / 2 → (maskUpperHalf img).px r c ch = 0) ∧
    (img.height / 2 ≤ r → (maskUpperHalf img).px r c ch = img.px r c ch) ∧
    ((warpPerspective (maskUpperHalf img) (inv3 (buildM cfg K E))
        cfg.outputWidth cfg.outputHeight).px r c ch = 0 ∨
      ∃ sr sc : ℕ, img.height / 2 ≤ sr ∧ sr < img.height ∧ sc < img.width ∧
        (warpPerspective (maskUpperHalf img) (inv3 (buildM cfg K E))
          cfg.outputWidth cfg.outputHeight).px r c ch = img.px sr sc ch) := by
  refine ⟨fun hr => ?_, fun hr => ?_, ?_⟩
  · simp [maskUpperHalf, hr]
  · simp [maskUpperHalf, Nat.not_lt.mpr hr]
  · rcases (warp_px_cases (maskUpperHalf img) (inv3 (buildM cfg K E))
        cfg.outputWidth cfg.outputHeight r c ch).2 with h0 | ⟨sr, sc, hsr, hsc, hpx⟩
    · exact Or.inl h0
    · have hsr' : sr < img.height := hsr
      have hsc' : sc < img.width := hsc
      by_cases hm : sr < img.height / 2
      · left
        rw [hpx]
        simp [maskUpperHalf, hm]
      · right
        refine ⟨sr, sc, Nat.not_lt.mp hm, hsr', hsc', ?_⟩
        rw [hpx]
        simp [maskUpperHalf, hm]

/-- Claim C6, witness: at a 2x2 source image, row 0 lies above the midline
and is masked to background. -/
theorem c6_witness : (maskUpperHalf imgEx).px 0 0 0 = 0 :=
  (c6_upper_half_masked cfgEx imgEx id3 eGood 0 0 0).1 (by decide)

/-- Claim C8: compositing two views with disjoint coverage — view A
background outside canvas columns `[0, w/2)`, view B background outside
`[w/2, w)` — yields exactly the union of the two views' pixels, and the
result is the same for both input orders. -/
theorem c8_disjoint_union_commutes (w : ℕ) (vA vB : ℕ → ℕ → Fin 3 → ℕ)
    (hA : ∀ r c ch, w / 2 ≤ c → vA r c ch = 0)
    (hB : ∀ r c ch, c < w / 2 → vB r c ch = 0)
    (r c : ℕ) (ch : Fin 3) :
    compositeList [vA, vB] r c ch = (if c < w / 2 then vA r c ch else vB r c ch) ∧
    compositeList [vA, vB] r c ch = compositeList [vB, vA] r c ch := by
  have e1 : compositeList [vA, vB] r c ch =
      if vA r c ch = 0 then vB r c ch else vA r c ch := by
    simp [compositeList, compositePx, List.foldl]
  have e2 : compositeList [vB, vA] r c ch =
      if vB r c ch = 0 then vA r c ch else vB r c ch := by
    simp [compositeList, compositePx, List.foldl]
  by_cases hc : c < w / 2
  · have hb := hB r c ch hc
    constructor
    · rw [e1, hb, if_pos hc]
      by_cases ha : vA r c ch = 0 <;> simp [ha]
    · rw [e1, e2, hb]
      by_cases ha : vA r c ch = 0 <;> simp [ha]
  · have ha := hA r c ch (Nat.not_lt.mp hc)
    constructor
    · rw [e1, ha, if_neg hc]
      simp
    · rw [e1, e2, ha]
      by_cases hb : vB r c ch = 0 <;> simp [hb]

/-- A view covering only the left half of a 2-pixel-wide canvas. -/
def vLeftHalf : ℕ → ℕ → Fin 3 → ℕ := fun _ c _ => if c < 1 then 5 else 0

/-- A view covering only the right half of a 2-pixel-wide canvas. -/
def vRightHalf : ℕ → ℕ → Fin 3 → ℕ := fun _ c _ => if c < 1 then 0 else 7

/-- Claim C8, witness: concrete disjoint views on a width-2 canvas, at the
covered pixels of each half. -/
theorem c8_witness :
    (compositeList [vLeftHalf, vRightHalf] 0 0 0 =
        (if (0 : ℕ) < 2 / 2 then vLeftHalf 0 0 0 else vRightHalf 0 0 0) ∧
      compositeList [vLeftHalf, vRightHalf] 0 0 0 =
        compositeList [vRightHalf, vLeftHalf] 0 0 0) ∧
    (compositeList [vLeftHalf, vRightHalf] 0 1 0 =
        (if (1 : ℕ) < 2 / 2 then vLeftHalf 0 1 0 else vRightHalf 0 1 0) ∧
      compositeList [vLeftHalf, vRightHalf] 0 1 0 =
        compositeList [vRightHalf, vLeftHalf] 0 1 0) :=
  ⟨c8_disjoint_union_commutes 2 vLeftHalf vRightHalf
      (by intro r c ch hc; simp only [vLeftHalf]; rw [if_neg (by omega)])
      (by intro r c ch hc; simp only [vRightHalf]; rw [if_pos (by omega)]) 0 0 0,
    c8_disjoint_union_commutes 2 vLeftHalf vRightHalf
      (by intro r c ch hc; simp only [vLeftHalf]; rw [if_neg (by omega)])
      (by intro r c ch hc; simp only [vRightHalf]; rw [if_pos (by omega)]) 0 1 0⟩

/-- A homogeneous 2D point `(a, b, c)` as a 3-vector. -/
def vec3 (a b c : ℚ) : Fin 3 → ℚ := fun i =>
  if i.val = 0 then a else if i.val = 1 then b else c

/-- The homogeneous 3D vehicle ground origin `(0, 0, 0, 1)`. -/
def originHom : Fin 4 → ℚ := fun i => if i.val = 3 then 1 else 0

/-- Claim C10: the origin shift is not an independent parameter —
`load_parameters` always derives it as `(output_width / 2, output_height / 2)`
in canvas pixels — and since the shift is applied to canvas pixel coordinates
before the metric scaling, the ground transform built by `apply_ipm` maps the
canvas **center** pixel `(output_width / 2, output_height / 2)` to the
vehicle ground origin, while the center of the left edge `(0,
output_height / 2)` does not map to the origin. -/
theorem c10_shift_is_canvas_center (ppm w h : ℕ) (hp : ppm ≠ 0) (hw : w ≠ 0) :
    (load_parameters ppm w h).shiftX = (w : ℚ) / 2 ∧
    (load_parameters ppm w h).shiftY = (h : ℚ) / 2 ∧
    mulVec43 (M_ground (load_parameters ppm w h))
      (vec3 ((w : ℚ) / 2) ((h : ℚ) / 2) 1) = originHom ∧
    mulVec43 (M_ground (load_parameters ppm w h))
      (vec3 0 ((h : ℚ) / 2) 1) ≠ originHom := by
  refine ⟨rfl, rfl, ?_, ?_⟩
  · funext i
    fin_cases i <;>
      (simp [mulVec43, M_ground, mul43x33, mul33, M_2D_to_3D, M_scale,
        M_direction, M_shift, vec3, originHom, load_parameters, fin4_mk_two,
        fin4_mk_three, fin3_mk_two]
       try ring)
  · intro heq
    have h0 := congrFun heq 0
    simp [mulVec43, M_ground, mul43x33, mul33, M_2D_to_3D, M_scale,
      M_direction, M_shift, vec3, originHom, load_parameters, fin4_mk_two,
      fin4_mk_three, fin3_mk_two] at h0
    rcases h0 with h0 | h0
    · exact hp h0
    · exact hw h0

/-- Claim C10, witness: the derived shift and center-to-origin mapping at a
concrete configuration (`px_per_m = 3`, 4x5 canvas). -/
theorem c10_witness :
    (load_parameters 3 4 5).shiftX = (4 : ℚ) / 2 ∧
    (load_parameters 3 4 5).shiftY = (5 : ℚ) / 2 ∧
    mulVec43 (M_ground (load_parameters 3 4 5))
      (vec3 ((4 : ℚ) / 2) ((5 : ℚ) / 2) 1) = originHom ∧
    mulVec43 (M_ground (load_parameters 3 4 5))
      (vec3 0 ((5 : ℚ) / 2) 1) ≠ originHom := by
  have h := c10_shift_is_canvas_center 3 4 5 (by decide) (by decide)
  refine ⟨h.1, h.2.1, ?_, h.2.2.2⟩
  have h3 := h.2.2.1
  norm_num at h3 ⊢
  exact h3
